import Mathlib

/-
Verification development for the raylib-toy particle system
(src/main.c, src/threadpool.c).

The embedding is shallow: arrays become functions `Nat → α`, the AVX2
intrinsics become lane-wise operations on `Fin 8 → F` over an abstract
single-precision arithmetic `FOps F` (each `_mm256_*_ps` intrinsic applies
the corresponding scalar IEEE operation independently in each of its 8
lanes, so any property proved for every interpretation of `FOps` holds in
particular for IEEE binary32), and the frame loops become fuel-indexed
structural recursions whose fuel provably dominates the iteration count.
-/

set_option maxRecDepth 8000

/-- Abstract single-precision arithmetic: one field per scalar float
operation used by the kernel (`+`, `-`, `*`, `/`, `sqrtf`). -/
structure FOps (F : Type) where
  add : F → F → F
  sub : F → F → F
  mul : F → F → F
  div : F → F → F
  sqrt : F → F

/-- The structure-of-arrays particle state (`Particles` in main.c):
`posX`, `posY`, `velX`, `velY` viewed as total functions on indices. -/
structure PState (F : Type) where
  posX : Nat → F
  posY : Nat → F
  velX : Nat → F
  velY : Nat → F

/-- `_mm256_load_ps (&a[b])`: the 8 consecutive lanes starting at `b`. -/
def vload {F : Type} (f : Nat → F) (b : Nat) : Fin 8 → F := fun j => f (b + j.val)

/-- `_mm256_store_ps (&a[b], v)`: overwrite lanes `b..b+7`, keep the rest. -/
def vstore {F : Type} (f : Nat → F) (b : Nat) (v : Fin 8 → F) : Nat → F :=
  fun n => if h : b ≤ n ∧ n - b < 8 then v ⟨n - b, h.2⟩ else f n

/-- `_mm256_set1_ps`: broadcast a scalar to all 8 lanes. -/
def vset1 {F : Type} (x : F) : Fin 8 → F := fun _ => x

/-- Lane-wise binary AVX2 operation (`_mm256_add_ps`, `_mm256_sub_ps`,
`_mm256_mul_ps`, `_mm256_div_ps`). -/
def vmap2 {F : Type} (op : F → F → F) (u v : Fin 8 → F) : Fin 8 → F :=
  fun j => op (u j) (v j)

/-- Lane-wise unary AVX2 operation (`_mm256_sqrt_ps`). -/
def vmap1 {F : Type} (op : F → F) (u : Fin 8 → F) : Fin 8 → F :=
  fun j => op (u j)

/-- One loop body of `UpdateParticlesWorkCallback` (main.c:446-485): load the
8 lanes at `i`, apply the attraction/friction arithmetic with the AVX2
intrinsics, store the four results back. -/
def updateParticlesBlock {F : Type} (ops : FOps F) (ax ay att fric : F)
    (st : PState F) (i : Nat) : PState F :=
  let posX := vload st.posX i
  let posY := vload st.posY i
  let velX := vload st.velX i
  let velY := vload st.velY i
  let mouseX := vset1 ax
  let mouseY := vset1 ay
  let diffX := vmap2 ops.sub mouseX posX
  let diffY := vmap2 ops.sub mouseY posY
  let distSq := vmap2 ops.add (vmap2 ops.mul diffX diffX) (vmap2 ops.mul diffY diffY)
  let dist := vmap1 ops.sqrt distSq
  let normX := vmap2 ops.div diffX dist
  let normY := vmap2 ops.div diffY dist
  let attraction := vset1 att
  let velXa := vmap2 ops.add velX (vmap2 ops.mul normX attraction)
  let velYa := vmap2 ops.add velY (vmap2 ops.mul normY attraction)
  let friction := vset1 fric
  let velXf := vmap2 ops.mul velXa friction
  let velYf := vmap2 ops.mul velYa friction
  let posXn := vmap2 ops.add posX velXf
  let posYn := vmap2 ops.add posY velYf
  { posX := vstore st.posX i posXn
    posY := vstore st.posY i posYn
    velX := vstore st.velX i velXf
    velY := vstore st.velY i velYf }

/-- The chunk loop of `UpdateParticlesWorkCallback` (main.c:443-486):
`for (i = start; i + 7 < end; i += 8)`, as a fuel-indexed recursion.
The guard `i + 8 ≤ e` is exactly `i + 7 < end`. -/
def updateParticlesLoop {F : Type} (ops : FOps F) (ax ay att fric : F) :
    Nat → PState F → Nat → Nat → PState F
  | 0, st, _, _ => st
  | Nat.succ fuel, st, i, e =>
    if i + 8 ≤ e then
      updateParticlesLoop ops ax ay att fric fuel
        (updateParticlesBlock ops ax ay att fric st i) (i + 8) e
    else st

/-- `UpdateParticlesWorkCallback` on the chunk `[s, e)`; fuel `e` dominates
the iteration count `(e - s) / 8`. -/
def updateParticlesWorkCallback {F : Type} (ops : FOps F) (ax ay att fric : F)
    (st : PState F) (s e : Nat) : PState F :=
  updateParticlesLoop ops ax ay att fric e st s e

/-- Result of updating a single particle. -/
structure PUpd (F : Type) where
  px : F
  py : F
  vx : F
  vy : F

/-- Modelled from the spec: the scalar per-particle update rule of §4.4
(`dx = attractorX - posX; ... posY = posY + velY`), stated independently of
the vectorized code so the kernel can be compared against it. -/
def specParticleRule {F : Type} (ops : FOps F) (ax ay att fric px py vx vy : F) : PUpd F :=
  let dx := ops.sub ax px
  let dy := ops.sub ay py
  let dist := ops.sqrt (ops.add (ops.mul dx dx) (ops.mul dy dy))
  let nx := ops.div dx dist
  let ny := ops.div dy dist
  let vxn := ops.mul (ops.add vx (ops.mul nx att)) fric
  let vyn := ops.mul (ops.add vy (ops.mul ny att)) fric
  { px := ops.add px vxn, py := ops.add py vyn, vx := vxn, vy := vyn }

/-- The spec rule applied to particle `n` of a state. -/
def specAt {F : Type} (ops : FOps F) (ax ay att fric : F) (st : PState F) (n : Nat) : PUpd F :=
  specParticleRule ops ax ay att fric (st.posX n) (st.posY n) (st.velX n) (st.velY n)

/-- Particle `n` of state `a` equals the single-particle result `u`. -/
def stateEqUpd {F : Type} (a : PState F) (u : PUpd F) (n : Nat) : Prop :=
  a.posX n = u.px ∧ a.posY n = u.py ∧ a.velX n = u.vx ∧ a.velY n = u.vy

/-- States `a` and `b` agree on particle `n`. -/
def agreeAt {F : Type} (a b : PState F) (n : Nat) : Prop :=
  a.posX n = b.posX n ∧ a.posY n = b.posY n ∧ a.velX n = b.velX n ∧ a.velY n = b.velY n

/-- Concrete interpretation of the arithmetic used to exercise the kernel on
sample inputs (integer arithmetic, `sqrt` interpreted as the identity). -/
def intOps : FOps Int where
  add := fun a b => a + b
  sub := fun a b => a - b
  mul := fun a b => a * b
  div := fun a b => a / b
  sqrt := fun a => a

/-- All-zero particle state over `Int`. -/
def stZero : PState Int :=
  { posX := fun _ => 0, posY := fun _ => 0, velX := fun _ => 0, velY := fun _ => 0 }

/-- Interpretation with an absorbing non-finite element `none` (IEEE-style:
any operation on a non-finite input is non-finite; `0 / 0` is non-finite). -/
def optIntOps : FOps (Option Int) where
  add := fun a b => match a, b with
    | some a, some b => some (a + b)
    | _, _ => none
  sub := fun a b => match a, b with
    | some a, some b => some (a - b)
    | _, _ => none
  mul := fun a b => match a, b with
    | some a, some b => some (a * b)
    | _, _ => none
  div := fun a b => match a, b with
    | some a, some b => if b = 0 then none else some (a / b)
    | _, _ => none
  sqrt := fun a => a

/-- All-zero particle state over `Option Int`. -/
def stZeroOpt : PState (Option Int) :=
  { posX := fun _ => some 0, posY := fun _ => some 0
    velX := fun _ => some 0, velY := fun _ => some 0 }

/-- `particlesPerThread = PARTICLE_COUNT / threadCount`
(main.c:494, integer division). -/
def particlesPerThread (count threadCount : Nat) : Nat := count / threadCount

/-- `args[i].start = i * particlesPerThread` (main.c:498). -/
def threadArgsStart (count threadCount i : Nat) : Nat :=
  i * particlesPerThread count threadCount

/-- `args[i].end = (i + 1) * particlesPerThread` (main.c:499); note the last
worker's range is computed by the same formula as every other worker's. -/
def threadArgsEnd (count threadCount i : Nat) : Nat :=
  (i + 1) * particlesPerThread count threadCount

/-- One iteration of the loop in `UpdateBufferWithParticleDensity`
(main.c:613-622): truncate the particle's position to integers (the `(int)`
casts, abstracted as `toInt`), and increment cell `y * w + x` if and only if
`x >= 0 && x < bufferWidth && y >= 0 && y < bufferHeight`. -/
def densityStep {F : Type} (toInt : F → Int) (px py : Nat → F) (w h : Nat)
    (buffer : Nat → Nat) (i : Nat) : Nat → Nat :=
  let x := toInt (px i)
  let y := toInt (py i)
  if 0 ≤ x ∧ x < (w : Int) ∧ 0 ≤ y ∧ y < (h : Int) then
    fun n => if n = (y * w + x).toNat then buffer n + 1 else buffer n
  else buffer

/-- The particle loop of `UpdateBufferWithParticleDensity`
(`for (i = start; i < end; i++)`), running for a given number of steps. -/
def densityLoop {F : Type} (toInt : F → Int) (px py : Nat → F) (w h : Nat) :
    Nat → (Nat → Nat) → Nat → (Nat → Nat)
  | 0, buffer, _ => buffer
  | Nat.succ k, buffer, i =>
    densityLoop toInt px py w h k (densityStep toInt px py w h buffer i) (i + 1)

/-- `UpdateBufferWithParticleDensity` (main.c:608-623): clear the buffer
(`memset` to 0), then run the particle loop over `[start, end)`. -/
def updateBufferWithParticleDensity {F : Type} (toInt : F → Int)
    (px py : Nat → F) (s e w h : Nat) : Nat → Nat :=
  densityLoop toInt px py w h (e - s) (fun _ => 0) s

/-- The in-bounds test of main.c:617 for particle `i`. -/
def inRangeCell {F : Type} (toInt : F → Int) (px py : Nat → F) (w h i : Nat) : Prop :=
  0 ≤ toInt (px i) ∧ toInt (px i) < (w : Int) ∧
    0 ≤ toInt (py i) ∧ toInt (py i) < (h : Int)

instance instDecInRangeCell {F : Type} (toInt : F → Int) (px py : Nat → F)
    (w h i : Nat) : Decidable (inRangeCell toInt px py w h i) := by
  unfold inRangeCell
  infer_instance

/-- The buffer cell `y * bufferWidth + x` targeted by particle `i`
(main.c:619). -/
def cellIndex {F : Type} (toInt : F → Int) (px py : Nat → F) (w i : Nat) : Nat :=
  (toInt (py i) * w + toInt (px i)).toNat

/-- One iteration of `CombineDensityBuffers` (main.c:252-262): load 8 lanes
from each input at `i`, add them with `_mm256_add_epi32`, store at `i`. -/
def combineStore8 (a b out : Nat → Nat) (i : Nat) : Nat → Nat :=
  fun n => if i ≤ n ∧ n - i < 8 then a n + b n else out n

/-- The loop of `CombineDensityBuffers`
(`for (i = 0; i < bufferSize; i += 8)`), as a fuel-indexed recursion. -/
def combineDensityLoop (a b : Nat → Nat) (size : Nat) :
    Nat → (Nat → Nat) → Nat → (Nat → Nat)
  | 0, out, _ => out
  | Nat.succ k, out, i =>
    if i < size then combineDensityLoop a b size k (combineStore8 a b out i) (i + 8)
    else out

/-- `CombineDensityBuffers(a, b, out, size)` (main.c:251-263); `out` is the
destination buffer's prior contents (in main.c:339 the destination aliases
`bufferA`, which is sound because each 8-lane block is loaded before it is
stored). Fuel `size` dominates the iteration count `⌈size / 8⌉`. -/
def combineDensityBuffers (a b out : Nat → Nat) (size : Nat) : Nat → Nat :=
  combineDensityLoop a b size size out 0

/-- Round a rational to the nearest integer, ties to even: the rounding
performed by `_mm256_cvtps_epi32` in the default MXCSR rounding mode, and
the significand rounding of IEEE binary32 arithmetic. -/
def rhe (q : ℚ) : Int :=
  if q - ⌊q⌋ < 1 / 2 then ⌊q⌋
  else if 1 / 2 < q - ⌊q⌋ then ⌊q⌋ + 1
  else if 2 ∣ ⌊q⌋ then ⌊q⌋ else ⌊q⌋ + 1

/-- Halving scan: for `1 ≤ q < 2 ^ fuel`, `qflogUp fuel q e` is
`e + ⌊log2 q⌋`. -/
def qflogUp : Nat → ℚ → Int → Int
  | 0, _, e => e
  | Nat.succ fuel, q, e => if 2 ≤ q then qflogUp fuel (q / 2) (e + 1) else e

/-- Doubling scan: for `2 ^ (-fuel) ≤ q < 1`, `qflogDown fuel q e` is
`e + ⌊log2 q⌋`. -/
def qflogDown : Nat → ℚ → Int → Int
  | 0, _, e => e
  | Nat.succ fuel, q, e => if q < 1 then qflogDown fuel (q * 2) (e - 1) else e

/-- `⌊log2 q⌋` for positive `q` in the IEEE binary32 range (fuel 300 covers
every exponent a binary32 value can take). -/
def qfloorLog2 (q : ℚ) : Int :=
  if 1 ≤ q then qflogUp 300 q 0 else qflogDown 300 q 0

/-- Round a positive rational to the nearest IEEE binary32 value: 24-bit
significand, round to nearest, ties to even. Overflow to infinity and the
subnormal range are not modelled; every value arising in these claims lies
well inside the normal range. -/
def rnd32pos (q : ℚ) : ℚ :=
  ((rhe (q * (2 : ℚ) ^ ((23 : Int) - qfloorLog2 q)) : ℚ)) *
    (2 : ℚ) ^ (qfloorLog2 q - 23)

/-- Round a rational to the nearest IEEE binary32 value. -/
def rnd32 (q : ℚ) : ℚ :=
  if q = 0 then 0 else if q < 0 then -(rnd32pos (-q)) else rnd32pos q

/-- The per-lane arithmetic of `ApplyDensityToPixelsSIMD` (main.c:230-235)
on one cell count `c`: `min(cvtps_epi32(cvtepi32_ps(c) * (255.0f /
maxDensity)), 255)`, with every float operation rounded to binary32. -/
def densityToBrightness (maxD c : Nat) : Int :=
  min (rhe (rnd32 (rnd32 (c : ℚ) * rnd32 ((255 : ℚ) / rnd32 (maxD : ℚ))))) 255

/-- The channel packing of main.c:244:
`r | (g << 8) | (b << 16) | (a << 24)`. -/
def packRGBA (r g b a : Nat) : Nat :=
  Nat.lor (Nat.lor r (Nat.shiftLeft g 8))
    (Nat.lor (Nat.shiftLeft b 16) (Nat.shiftLeft a 24))

/-- One iteration of `ApplyDensityToPixelsSIMD` (main.c:228-248): for each
of the 8 lanes at `i`, map the density count to a brightness, replicate it
into R, G, B, set A = 255, pack, and store into the pixel buffer. -/
def applyDensityStore8 (den : Nat → Nat) (maxD : Nat) (pixels : Nat → Nat)
    (i : Nat) : Nat → Nat :=
  fun n =>
    if i ≤ n ∧ n - i < 8 then
      packRGBA (densityToBrightness maxD (den n)).toNat
        (densityToBrightness maxD (den n)).toNat
        (densityToBrightness maxD (den n)).toNat 255
    else pixels n

/-- The loop of `ApplyDensityToPixelsSIMD`
(`for (i = 0; i < bufferSize; i += 8)`), as a fuel-indexed recursion. -/
def applyDensityLoop (den : Nat → Nat) (maxD size : Nat) :
    Nat → (Nat → Nat) → Nat → (Nat → Nat)
  | 0, pixels, _ => pixels
  | Nat.succ k, pixels, i =>
    if i < size then
      applyDensityLoop den maxD size k (applyDensityStore8 den maxD pixels i) (i + 8)
    else pixels

/-- `ApplyDensityToPixelsSIMD(den, pixels, size, maxD)` (main.c:227-249). -/
def applyDensityToPixelsSIMD (den pixels : Nat → Nat) (size maxD : Nat) : Nat → Nat :=
  applyDensityLoop den maxD size size pixels 0

/-- The particle arrays produced by `CreateParticles`, as lists of exact
values (scanline coordinates are small integers, which binary32 represents
exactly). -/
structure Particles where
  posX : List Int
  posY : List Int
  velX : List Int
  velY : List Int
  count : Nat

/-- `CreateParticles` (main.c:397-422): scanline placement
`x = i % screenWidth`, `y = i / screenWidth`, zero velocity, `count` stored
as given. `screenHeight` is accepted and unused, as in the source. -/
def createParticles (count screenWidth screenHeight : Nat) : Particles :=
  { count := count
    posX := (List.range count).map (fun i => ((i % screenWidth : Nat) : Int))
    posY := (List.range count).map (fun i => ((i / screenWidth : Nat) : Int))
    velX := (List.range count).map (fun _ => (0 : Int))
    velY := (List.range count).map (fun _ => (0 : Int)) }

/-- Result of `CreateParticles` under a fallible aligned allocator: `none`
stands for a NULL pointer returned by `_aligned_malloc`. -/
structure ParticlesAlloc where
  posX : Option (List Int)
  posY : Option (List Int)
  velX : Option (List Int)
  velY : Option (List Int)
  count : Nat

/-- `CreateParticles` with the four `_aligned_malloc` outcomes made
explicit. The source (main.c:397-422) performs no NULL check: it stores
`count`, keeps whatever pointers the allocator returned, and returns the
struct unconditionally (with `count > 0` and a failed allocation, the
initialization loop would write through the NULL pointer). -/
def createParticlesAlloc (ok1 ok2 ok3 ok4 : Bool)
    (count screenWidth screenHeight : Nat) : ParticlesAlloc :=
  { count := count
    posX := if ok1 then
        some ((List.range count).map (fun i => ((i % screenWidth : Nat) : Int)))
      else none
    posY := if ok2 then
        some ((List.range count).map (fun i => ((i / screenWidth : Nat) : Int)))
      else none
    velX := if ok3 then some ((List.range count).map (fun _ => (0 : Int))) else none
    velY := if ok4 then some ((List.range count).map (fun _ => (0 : Int))) else none }

/-- Observable outcome of `SimpleThreadPool_Init`: whether a pool wrapper
was returned, and which resources were acquired and released on the way. -/
structure ThreadPoolInitResult where
  success : Bool
  wrapperAllocated : Bool
  wrapperFreed : Bool
  poolCreated : Bool
  poolClosed : Bool
  envInitialized : Bool
  envDestroyed : Bool

/-- `SimpleThreadPool_Init` (threadpool.c:5-29) with the three fallible OS
calls (`malloc`, `CreateThreadpool`, `SetThreadpoolThreadMinimum`) made
explicit, following the source's control flow branch by branch:
`malloc` failure returns NULL with nothing acquired; `CreateThreadpool`
failure frees the wrapper and returns NULL; `SetThreadpoolThreadMinimum`
failure closes the pool, destroys the callback environment, frees the
wrapper and returns NULL; otherwise the wrapper is returned with
everything acquired and nothing released. -/
def simpleThreadPool_Init (mallocOk createPoolOk setMinOk : Bool) : ThreadPoolInitResult :=
  if mallocOk = false then
    { success := false, wrapperAllocated := false, wrapperFreed := false
      poolCreated := false, poolClosed := false
      envInitialized := false, envDestroyed := false }
  else if createPoolOk = false then
    { success := false, wrapperAllocated := true, wrapperFreed := true
      poolCreated := false, poolClosed := false
      envInitialized := false, envDestroyed := false }
  else if setMinOk = false then
    { success := false, wrapperAllocated := true, wrapperFreed := true
      poolCreated := true, poolClosed := true
      envInitialized := true, envDestroyed := true }
  else
    { success := true, wrapperAllocated := true, wrapperFreed := false
      poolCreated := true, poolClosed := false
      envInitialized := true, envDestroyed := false }

theorem updateParticlesBlock_in {F : Type} (ops : FOps F) (ax ay att fric : F)
    (st : PState F) (b n : Nat) (h1 : b ≤ n) (h2 : n - b < 8) :
    stateEqUpd (updateParticlesBlock ops ax ay att fric st b)
      (specAt ops ax ay att fric st n) n := by
  have hb : b + (n - b) = n := Nat.add_sub_cancel' h1
  refine ⟨?_, ?_, ?_, ?_⟩ <;>
    simp only [updateParticlesBlock, specAt, specParticleRule, vstore, vload,
      vset1, vmap1, vmap2, stateEqUpd] <;>
    rw [dif_pos ⟨h1, h2⟩] <;> simp only [hb]

theorem updateParticlesBlock_out {F : Type} (ops : FOps F) (ax ay att fric : F)
    (st : PState F) (b n : Nat) (h : n < b ∨ b + 8 ≤ n) :
    agreeAt (updateParticlesBlock ops ax ay att fric st b) st n := by
  have hno : ¬ (b ≤ n ∧ n - b < 8) := by omega
  refine ⟨?_, ?_, ?_, ?_⟩ <;>
    simp only [updateParticlesBlock, vstore] <;> rw [dif_neg hno]

theorem updateParticlesLoop_lo {F : Type} (ops : FOps F) (ax ay att fric : F)
    (e : Nat) : ∀ (fuel i n : Nat) (st : PState F), n < i →
    agreeAt (updateParticlesLoop ops ax ay att fric fuel st i e) st n := by
  intro fuel
  induction fuel with
  | zero => intro i n st _; exact ⟨rfl, rfl, rfl, rfl⟩
  | succ fuel ih =>
    intro i n st hn
    simp only [updateParticlesLoop]
    by_cases hg : i + 8 ≤ e
    · rw [if_pos hg]
      have h1 := ih (i + 8) n (updateParticlesBlock ops ax ay att fric st i) (by omega)
      have h2 := updateParticlesBlock_out ops ax ay att fric st i n (Or.inl hn)
      exact ⟨h1.1.trans h2.1, h1.2.1.trans h2.2.1, h1.2.2.1.trans h2.2.2.1,
        h1.2.2.2.trans h2.2.2.2⟩
    · rw [if_neg hg]; exact ⟨rfl, rfl, rfl, rfl⟩

theorem updateParticlesLoop_hi {F : Type} (ops : FOps F) (ax ay att fric : F)
    (e : Nat) : ∀ (fuel i n : Nat) (st : PState F), i + 8 * ((e - i) / 8) ≤ n →
    agreeAt (updateParticlesLoop ops ax ay att fric fuel st i e) st n := by
  intro fuel
  induction fuel with
  | zero => intro i n st _; exact ⟨rfl, rfl, rfl, rfl⟩
  | succ fuel ih =>
    intro i n st hn
    simp only [updateParticlesLoop]
    by_cases hg : i + 8 ≤ e
    · rw [if_pos hg]
      have hsplit : e - i = (e - (i + 8)) + 8 := by omega
      have hdiv : (e - i) / 8 = (e - (i + 8)) / 8 + 1 := by
        rw [hsplit, Nat.add_div_right _ (by norm_num)]
      have hn8 : (i + 8) + 8 * ((e - (i + 8)) / 8) ≤ n := by
        rw [hdiv] at hn; omega
      have h1 := ih (i + 8) n (updateParticlesBlock ops ax ay att fric st i) hn8
      have hq : (e - i) / 8 ≥ 1 := by
        have : e - i ≥ 8 := by omega
        omega
      have h2 := updateParticlesBlock_out ops ax ay att fric st i n (Or.inr (by omega))
      exact ⟨h1.1.trans h2.1, h1.2.1.trans h2.2.1, h1.2.2.1.trans h2.2.2.1,
        h1.2.2.2.trans h2.2.2.2⟩
    · rw [if_neg hg]; exact ⟨rfl, rfl, rfl, rfl⟩

theorem updateParticlesLoop_mid {F : Type} (ops : FOps F) (ax ay att fric : F)
    (e : Nat) : ∀ (fuel i n : Nat) (st : PState F), e ≤ 8 * fuel + i → i ≤ n →
    n < i + 8 * ((e - i) / 8) →
    stateEqUpd (updateParticlesLoop ops ax ay att fric fuel st i e)
      (specAt ops ax ay att fric st n) n := by
  intro fuel
  induction fuel with
  | zero =>
    intro i n st hfuel hlo hhi
    exfalso
    have : e - i = 0 := by omega
    rw [this] at hhi
    omega
  | succ fuel ih =>
    intro i n st hfuel hlo hhi
    have hg : i + 8 ≤ e := by
      by_contra hg
      have : e - i < 8 := by omega
      have : (e - i) / 8 = 0 := Nat.div_eq_of_lt this
      rw [this] at hhi
      omega
    simp only [updateParticlesLoop, if_pos hg]
    have hsplit : e - i = (e - (i + 8)) + 8 := by omega
    have hdiv : (e - i) / 8 = (e - (i + 8)) / 8 + 1 := by
      rw [hsplit, Nat.add_div_right _ (by norm_num)]
    by_cases hcase : n < i + 8
    · have hblock := updateParticlesBlock_in ops ax ay att fric st i n hlo (by omega)
      have hrest := updateParticlesLoop_lo ops ax ay att fric e fuel (i + 8) n
        (updateParticlesBlock ops ax ay att fric st i) hcase
      exact ⟨hrest.1.trans hblock.1, hrest.2.1.trans hblock.2.1,
        hrest.2.2.1.trans hblock.2.2.1, hrest.2.2.2.trans hblock.2.2.2⟩
    · have hlo8 : i + 8 ≤ n := by omega
      have hhi8 : n < (i + 8) + 8 * ((e - (i + 8)) / 8) := by
        rw [hdiv] at hhi; omega
      have hagree := updateParticlesBlock_out ops ax ay att fric st i n (Or.inr hlo8)
      have hrec := ih (i + 8) n (updateParticlesBlock ops ax ay att fric st i)
        (by omega) hlo8 hhi8
      rw [specAt, hagree.1, hagree.2.1, hagree.2.2.1, hagree.2.2.2] at hrec
      exact hrec

theorem densityLoop_char {F : Type} (toInt : F → Int) (px py : Nat → F) (w h : Nat) :
    ∀ (k i c : Nat) (buffer : Nat → Nat),
    densityLoop toInt px py w h k buffer i c =
      buffer c + ((Finset.Ico i (i + k)).filter
        (fun j => inRangeCell toInt px py w h j ∧ cellIndex toInt px py w j = c)).card := by
  intro k
  induction k with
  | zero =>
    intro i c buffer
    simp [densityLoop]
  | succ k ih =>
    intro i c buffer
    have hlt : i < i + (k + 1) := by omega
    have harr : i + 1 + k = i + (k + 1) := by omega
    simp only [densityLoop]
    rw [ih (i + 1) c (densityStep toInt px py w h buffer i)]
    rw [harr]
    rw [Finset.card_filter, Finset.card_filter, Finset.sum_eq_sum_Ico_succ_bot hlt]
    have hstep : densityStep toInt px py w h buffer i c =
        buffer c + (if inRangeCell toInt px py w h i ∧ cellIndex toInt px py w i = c
          then 1 else 0) := by
      simp only [densityStep, cellIndex, inRangeCell, ite_apply]
      by_cases hin : 0 ≤ toInt (px i) ∧ toInt (px i) < (w : Int) ∧
          0 ≤ toInt (py i) ∧ toInt (py i) < (h : Int)
      · rw [if_pos hin]
        by_cases hc : c = (toInt (py i) * (w : Int) + toInt (px i)).toNat
        · rw [if_pos hc, if_pos ⟨hin, hc.symm⟩]
        · rw [if_neg hc, if_neg fun hP => hc hP.2.symm]
          exact (Nat.add_zero _).symm
      · rw [if_neg hin, if_neg fun hP => hin hP.1]
        exact (Nat.add_zero _).symm
    rw [hstep, Nat.add_assoc]

theorem updateBuffer_char {F : Type} (toInt : F → Int) (px py : Nat → F)
    (s e w h c : Nat) :
    updateBufferWithParticleDensity toInt px py s e w h c =
      ((Finset.Ico s e).filter
        (fun j => inRangeCell toInt px py w h j ∧ cellIndex toInt px py w j = c)).card := by
  unfold updateBufferWithParticleDensity
  rcases Nat.le_total s e with hse | hse
  · rw [densityLoop_char, Nat.add_sub_cancel' hse]
    exact Nat.zero_add _
  · have h0 : e - s = 0 := by omega
    rw [densityLoop_char, h0]
    simp [Finset.Ico_eq_empty_of_le hse]

theorem sum_updateBuffer {F : Type} (toInt : F → Int) (px py : Nat → F)
    (s e w h : Nat) :
    (∑ c in Finset.range (w * h),
      updateBufferWithParticleDensity toInt px py s e w h c) =
      ((Finset.Ico s e).filter (fun j => inRangeCell toInt px py w h j)).card := by
  have hterm : ∀ c ∈ Finset.range (w * h),
      updateBufferWithParticleDensity toInt px py s e w h c =
        ((Finset.Ico s e).filter
          (fun j => inRangeCell toInt px py w h j ∧ cellIndex toInt px py w j = c)).card :=
    fun c _ => updateBuffer_char toInt px py s e w h c
  rw [Finset.sum_congr rfl hterm]
  have hmap : ∀ j ∈ (Finset.Ico s e).filter (fun j => inRangeCell toInt px py w h j),
      cellIndex toInt px py w j ∈ Finset.range (w * h) := by
    intro j hj
    rw [Finset.mem_range]
    have hin : inRangeCell toInt px py w h j := (Finset.mem_filter.mp hj).2
    obtain ⟨hx0, hxw, hy0, hyh⟩ := hin
    unfold cellIndex
    have hkey : toInt (py j) * (w : Int) + toInt (px j) < (w : Int) * (h : Int) := by
      calc toInt (py j) * (w : Int) + toInt (px j)
          < toInt (py j) * (w : Int) + (w : Int) := add_lt_add_left hxw _
        _ = (toInt (py j) + 1) * (w : Int) := by ring
        _ ≤ (h : Int) * (w : Int) :=
            mul_le_mul_of_nonneg_right (by omega) (by positivity)
        _ = (w : Int) * (h : Int) := by ring
    have hkey2 : toInt (py j) * (w : Int) + toInt (px j) < ((w * h : Nat) : Int) := by
      push_cast
      exact hkey
    have hnn : 0 ≤ toInt (py j) * (w : Int) + toInt (px j) := by
      have h1 : 0 ≤ toInt (py j) * (w : Int) := mul_nonneg hy0 (by positivity)
      omega
    generalize hz : toInt (py j) * (w : Int) + toInt (px j) = z at hkey2 hnn ⊢
    generalize hm : w * h = m at hkey2 ⊢
    omega
  rw [Finset.card_eq_sum_card_fiberwise hmap]
  apply Finset.sum_congr rfl
  intro c _
  rw [Finset.filter_filter]

theorem combineDensityLoop_lo (a b : Nat → Nat) (size : Nat) :
    ∀ (k i c : Nat) (out : Nat → Nat), c < i →
      combineDensityLoop a b size k out i c = out c := by
  intro k
  induction k with
  | zero => intro i c out _; rfl
  | succ k ih =>
    intro i c out hc
    simp only [combineDensityLoop]
    by_cases hg : i < size
    · rw [if_pos hg, ih (i + 8) c _ (by omega)]
      simp only [combineStore8]
      rw [if_neg (by omega)]
    · rw [if_neg hg]

theorem combineDensityLoop_cover (a b : Nat → Nat) (size : Nat) :
    ∀ (k i c : Nat) (out : Nat → Nat), size ≤ 8 * k + i → i ≤ c → c < size →
      combineDensityLoop a b size k out i c = a c + b c := by
  intro k
  induction k with
  | zero =>
    intro i c out h1 h2 h3
    exact absurd h3 (by omega)
  | succ k ih =>
    intro i c out h1 h2 h3
    have hg : i < size := by omega
    simp only [combineDensityLoop, if_pos hg]
    by_cases hcb : c < i + 8
    · rw [combineDensityLoop_lo a b size k (i + 8) c _ hcb]
      simp only [combineStore8]
      rw [if_pos ⟨h2, by omega⟩]
    · exact ih (i + 8) c _ (by omega) (by omega) h3

theorem combineDensityBuffers_cover (a b out : Nat → Nat) (size c : Nat)
    (hc : c < size) : combineDensityBuffers a b out size c = a c + b c :=
  combineDensityLoop_cover a b size size 0 c out (by omega) (Nat.zero_le c) hc

theorem applyDensityLoop_lo (den : Nat → Nat) (maxD size : Nat) :
    ∀ (k i c : Nat) (pixels : Nat → Nat), c < i →
      applyDensityLoop den maxD size k pixels i c = pixels c := by
  intro k
  induction k with
  | zero => intro i c pixels _; rfl
  | succ k ih =>
    intro i c pixels hc
    simp only [applyDensityLoop]
    by_cases hg : i < size
    · rw [if_pos hg, ih (i + 8) c _ (by omega)]
      simp only [applyDensityStore8]
      rw [if_neg (by omega)]
    · rw [if_neg hg]

theorem applyDensityLoop_cover (den : Nat → Nat) (maxD size : Nat) :
    ∀ (k i c : Nat) (pixels : Nat → Nat), size ≤ 8 * k + i → i ≤ c → c < size →
      applyDensityLoop den maxD size k pixels i c =
        packRGBA (densityToBrightness maxD (den c)).toNat
          (densityToBrightness maxD (den c)).toNat
          (densityToBrightness maxD (den c)).toNat 255 := by
  intro k
  induction k with
  | zero =>
    intro i c pixels h1 h2 h3
    exact absurd h3 (by omega)
  | succ k ih =>
    intro i c pixels h1 h2 h3
    have hg : i < size := by omega
    simp only [applyDensityLoop, if_pos hg]
    by_cases hcb : c < i + 8
    · rw [applyDensityLoop_lo den maxD size k (i + 8) c _ hcb]
      simp only [applyDensityStore8]
      rw [if_pos ⟨h2, by omega⟩]
    · exact ih (i + 8) c _ (by omega) (by omega) h3

theorem floorq (q : ℚ) (k : Int) (h1 : (k : ℚ) ≤ q) (h2 : q < k + 1) : ⌊q⌋ = k :=
  Int.floor_eq_iff.mpr ⟨h1, h2⟩

theorem rhe_of_floor_lt (q : ℚ) (k : Int) (hf : ⌊q⌋ = k) (hr : q - (k : ℚ) < 1 / 2) :
    rhe q = k := by
  unfold rhe
  rw [hf, if_pos hr]

theorem rhe_of_floor_gt (q : ℚ) (k : Int) (hf : ⌊q⌋ = k) (hr : 1 / 2 < q - (k : ℚ)) :
    rhe q = k + 1 := by
  unfold rhe
  rw [hf, if_neg (by linarith), if_pos hr]

theorem rhe_of_tie_even (q : ℚ) (k : Int) (hf : ⌊q⌋ = k) (hr : q - (k : ℚ) = 1 / 2)
    (hev : 2 ∣ k) : rhe q = k := by
  unfold rhe
  rw [hf, hr, if_neg (by norm_num), if_neg (by norm_num), if_pos hev]

theorem qflogUp_done (fuel : Nat) (q : ℚ) (e : Int) (h : ¬ 2 ≤ q) :
    qflogUp (fuel + 1) q e = e := by
  simp only [qflogUp]
  rw [if_neg h]

theorem qflogUp_step (fuel : Nat) (q q2 : ℚ) (e : Int) (h : 2 ≤ q) (hq : q / 2 = q2) :
    qflogUp (fuel + 1) q e = qflogUp fuel q2 (e + 1) := by
  simp only [qflogUp]
  rw [if_pos h, hq]

theorem rnd32_eval (q : ℚ) (e m : Int) (hq : 0 < q) (hlog : qfloorLog2 q = e)
    (hm : rhe (q * (2 : ℚ) ^ ((23 : Int) - e)) = m) :
    rnd32 q = (m : ℚ) * (2 : ℚ) ^ (e - 23) := by
  unfold rnd32
  rw [if_neg (by linarith), if_neg (by linarith)]
  unfold rnd32pos
  rw [hlog, hm]

theorem rnd32_val50 : rnd32 (50 : ℚ) = 50 := by
  have hlog : qfloorLog2 (50 : ℚ) = 5 := by
    unfold qfloorLog2
    rw [if_pos (by norm_num)]
    rw [qflogUp_step 299 _ 25 _ (by norm_num) (by norm_num)]
    rw [qflogUp_step 298 _ (25 / 2) _ (by norm_num) (by norm_num)]
    rw [qflogUp_step 297 _ (25 / 4) _ (by norm_num) (by norm_num)]
    rw [qflogUp_step 296 _ (25 / 8) _ (by norm_num) (by norm_num)]
    rw [qflogUp_step 295 _ (25 / 16) _ (by norm_num) (by norm_num)]
    rw [qflogUp_done 294 _ _ (by norm_num)]
    norm_num
  have harg : (50 : ℚ) * (2 : ℚ) ^ ((23 : Int) - 5) = 13107200 := by norm_num
  have hm : rhe ((50 : ℚ) * (2 : ℚ) ^ ((23 : Int) - 5)) = 13107200 := by
    rw [harg]
    exact rhe_of_floor_lt _ 13107200 (floorq _ _ (by norm_num) (by norm_num)) (by norm_num)
  rw [rnd32_eval 50 5 13107200 (by norm_num) hlog hm]
  norm_num

theorem rnd32_val_scale : rnd32 ((255 : ℚ) / rnd32 (50 : ℚ)) = 10695475 / 2097152 := by
  rw [rnd32_val50]
  have h51 : (255 : ℚ) / 50 = 51 / 10 := by norm_num
  rw [h51]
  have hlog : qfloorLog2 ((51 : ℚ) / 10) = 2 := by
    unfold qfloorLog2
    rw [if_pos (by norm_num)]
    rw [qflogUp_step 299 _ (51 / 20) _ (by norm_num) (by norm_num)]
    rw [qflogUp_step 298 _ (51 / 40) _ (by norm_num) (by norm_num)]
    rw [qflogUp_done 297 _ _ (by norm_num)]
    norm_num
  have harg : (51 : ℚ) / 10 * (2 : ℚ) ^ ((23 : Int) - 2) = 53477376 / 5 := by norm_num
  have hm : rhe ((51 : ℚ) / 10 * (2 : ℚ) ^ ((23 : Int) - 2)) = 10695475 := by
    rw [harg]
    exact rhe_of_floor_lt _ 10695475 (floorq _ _ (by norm_num) (by norm_num)) (by norm_num)
  rw [rnd32_eval _ 2 10695475 (by norm_num) hlog hm]
  norm_num

theorem rnd32_val15 : rnd32 (15 : ℚ) = 15 := by
  have hlog : qfloorLog2 (15 : ℚ) = 3 := by
    unfold qfloorLog2
    rw [if_pos (by norm_num)]
    rw [qflogUp_step 299 _ (15 / 2) _ (by norm_num) (by norm_num)]
    rw [qflogUp_step 298 _ (15 / 4) _ (by norm_num) (by norm_num)]
    rw [qflogUp_step 297 _ (15 / 8) _ (by norm_num) (by norm_num)]
    rw [qflogUp_done 296 _ _ (by norm_num)]
    norm_num
  have harg : (15 : ℚ) * (2 : ℚ) ^ ((23 : Int) - 3) = 15728640 := by norm_num
  have hm : rhe ((15 : ℚ) * (2 : ℚ) ^ ((23 : Int) - 3)) = 15728640 := by
    rw [harg]
    exact rhe_of_floor_lt _ 15728640 (floorq _ _ (by norm_num) (by norm_num)) (by norm_num)
  rw [rnd32_eval 15 3 15728640 (by norm_num) hlog hm]
  norm_num

theorem brightness_15_50 : densityToBrightness 50 15 = 76 := by
  unfold densityToBrightness
  rw [show ((15 : Nat) : ℚ) = (15 : ℚ) by norm_num,
    show ((50 : Nat) : ℚ) = (50 : ℚ) by norm_num, rnd32_val15, rnd32_val_scale]
  have hprod : (15 : ℚ) * (10695475 / 2097152) = 160432125 / 2097152 := by norm_num
  rw [hprod]
  have hlog : qfloorLog2 ((160432125 : ℚ) / 2097152) = 6 := by
    unfold qfloorLog2
    rw [if_pos (by norm_num)]
    rw [qflogUp_step 299 _ (160432125 / 4194304) _ (by norm_num) (by norm_num)]
    rw [qflogUp_step 298 _ (160432125 / 8388608) _ (by norm_num) (by norm_num)]
    rw [qflogUp_step 297 _ (160432125 / 16777216) _ (by norm_num) (by norm_num)]
    rw [qflogUp_step 296 _ (160432125 / 33554432) _ (by norm_num) (by norm_num)]
    rw [qflogUp_step 295 _ (160432125 / 67108864) _ (by norm_num) (by norm_num)]
    rw [qflogUp_step 294 _ (160432125 / 134217728) _ (by norm_num) (by norm_num)]
    rw [qflogUp_done 293 _ _ (by norm_num)]
    norm_num
  have harg : (160432125 : ℚ) / 2097152 * (2 : ℚ) ^ ((23 : Int) - 6) = 160432125 / 16 := by
    norm_num
  have hm : rhe ((160432125 : ℚ) / 2097152 * (2 : ℚ) ^ ((23 : Int) - 6)) = 10027008 := by
    rw [harg,
      rhe_of_floor_gt _ 10027007 (floorq _ _ (by norm_num) (by norm_num)) (by norm_num)]
    norm_num
  rw [rnd32_eval _ 6 10027008 (by norm_num) hlog hm]
  rw [show ((10027008 : Int) : ℚ) * (2 : ℚ) ^ ((6 : Int) - 23) = 153 / 2 by norm_num]
  rw [rhe_of_tie_even _ 76 (floorq _ _ (by norm_num) (by norm_num)) (by norm_num) (by decide)]
  norm_num

/-- C1: every particle index processed by the kinematics kernel is updated
exactly by the spec §4.4 per-particle rule (`dx = attractorX - posX; ...;
posY = posY + velY`), and the 8-wide AVX2 path agrees lane-wise with that
scalar rule on the same inputs: the equality holds for every interpretation
`ops` of the scalar arithmetic — in particular IEEE binary32 — because each
AVX2 intrinsic applies its scalar operation independently in each lane. -/
theorem kernel_matches_spec_rule {F : Type} (ops : FOps F) (ax ay att fric : F)
    (st : PState F) (s e n : Nat) (h1 : s ≤ n) (h2 : n < s + 8 * ((e - s) / 8)) :
    stateEqUpd (updateParticlesWorkCallback ops ax ay att fric st s e)
      (specAt ops ax ay att fric st n) n :=
  updateParticlesLoop_mid ops ax ay att fric e e s n st (by omega) h1 h2

theorem kernel_matches_spec_rule_witness :
    (0 ≤ 0 ∧ 0 < 0 + 8 * ((8 - 0) / 8)) ∧
    stateEqUpd (updateParticlesWorkCallback intOps 1 0 1 1 stZero 0 8)
      (specAt intOps 1 0 1 1 stZero 0) 0 :=
  ⟨⟨by decide, by decide⟩,
    kernel_matches_spec_rule intOps 1 0 1 1 stZero 0 8 0 (by decide) (by decide)⟩

/-- C2 counterexample: with `count = 10`, `workerCount = 3` the chunk size
is `10 / 3 = 3` and the last worker's range is `[6, 9)` — computed by the
same formula as every other worker's, not extended to `count` — so index 9
lies in no worker's range although `9 < count`: the union of the ranges is
not `[0, count)`. -/
theorem partition_coverage_counterexample :
    9 < 10 ∧ ∀ i, i < 3 →
      ¬ (threadArgsStart 10 3 i ≤ 9 ∧ 9 < threadArgsEnd 10 3 i) := by
  decide

/-- C2 (amended): every worker `i < workerCount` gets the contiguous range
`[i * chunkSize, (i+1) * chunkSize)` with `chunkSize = count / workerCount`
— including the last worker, whose range is not extended to `count`. The
ranges are pairwise disjoint and their union is exactly
`[0, workerCount * chunkSize)`, which equals `[0, count)` precisely when
`workerCount` divides `count` (as in the shipped configuration,
`3096000 / 12`); otherwise the trailing `count mod workerCount` indices are
assigned to no worker. -/
theorem partition_ranges (count workerCount : Nat) (hw : 1 ≤ workerCount) :
    (∀ i j n, i < workerCount → j < workerCount → i ≠ j →
      ¬ ((threadArgsStart count workerCount i ≤ n ∧
          n < threadArgsEnd count workerCount i) ∧
         (threadArgsStart count workerCount j ≤ n ∧
          n < threadArgsEnd count workerCount j))) ∧
    (∀ n, (∃ i, i < workerCount ∧ threadArgsStart count workerCount i ≤ n ∧
      n < threadArgsEnd count workerCount i) ↔
      n < workerCount * (count / workerCount)) ∧
    (workerCount ∣ count → workerCount * (count / workerCount) = count) := by
  simp only [threadArgsStart, threadArgsEnd, particlesPerThread]
  refine ⟨?_, ?_, fun hd => Nat.mul_div_cancel' hd⟩
  · rintro i j n hi hj hij ⟨⟨hs1, he1⟩, ⟨hs2, he2⟩⟩
    rcases Nat.lt_or_ge i j with hij2 | hij2
    · have hle : (i + 1) * (count / workerCount) ≤ j * (count / workerCount) :=
        Nat.mul_le_mul_right _ (by omega)
      exact absurd ((he1.trans_le hle).trans_le hs2) (lt_irrefl n)
    · have hji : j < i := by omega
      have hle : (j + 1) * (count / workerCount) ≤ i * (count / workerCount) :=
        Nat.mul_le_mul_right _ (by omega)
      exact absurd ((he2.trans_le hle).trans_le hs1) (lt_irrefl n)
  · intro n
    constructor
    · rintro ⟨i, hi, hs, he⟩
      have hle : (i + 1) * (count / workerCount) ≤
          workerCount * (count / workerCount) :=
        Nat.mul_le_mul_right _ (by omega)
      exact he.trans_le hle
    · intro hn
      have hq : 0 < count / workerCount := by
        rcases Nat.eq_zero_or_pos (count / workerCount) with h0 | h0
        · rw [h0, Nat.mul_zero] at hn
          exact absurd hn (Nat.not_lt_zero n)
        · exact h0
      refine ⟨n / (count / workerCount), ?_, Nat.div_mul_le_self n _, ?_⟩
      · exact (Nat.div_lt_iff_lt_mul hq).mpr hn
      · have hmlt : n % (count / workerCount) < count / workerCount :=
          Nat.mod_lt _ hq
        calc n = count / workerCount * (n / (count / workerCount)) +
              n % (count / workerCount) := (Nat.div_add_mod n _).symm
          _ < count / workerCount * (n / (count / workerCount)) +
              count / workerCount := Nat.add_lt_add_left hmlt _
          _ = (n / (count / workerCount) + 1) * (count / workerCount) := by ring

theorem partition_ranges_witness :
    1 ≤ 3 ∧ ((∃ i, i < 3 ∧ threadArgsStart 12 3 i ≤ 7 ∧
      7 < threadArgsEnd 12 3 i) ↔ 7 < 3 * (12 / 3)) :=
  ⟨by decide, (partition_ranges 12 3 (by decide)).2.1 7⟩

/-- C3: in the density writer, a particle whose truncated integer position
lies in `[0,w) × [0,h)` increments exactly the cell `y * w + x` by one and
modifies no other cell; an out-of-range particle modifies no cell at all —
it is skipped, never wrapped or clamped into range. Consequently each cell
of the writer's output buffer counts exactly the in-range particles of
`[start, end)` that map to it. -/
theorem density_writer_per_particle {F : Type} (toInt : F → Int)
    (px py : Nat → F) (s e w h : Nat) :
    (∀ (buffer : Nat → Nat) (i : Nat),
      (inRangeCell toInt px py w h i →
        densityStep toInt px py w h buffer i (cellIndex toInt px py w i) =
          buffer (cellIndex toInt px py w i) + 1 ∧
        ∀ n, n ≠ cellIndex toInt px py w i →
          densityStep toInt px py w h buffer i n = buffer n) ∧
      (¬ inRangeCell toInt px py w h i →
        ∀ n, densityStep toInt px py w h buffer i n = buffer n)) ∧
    (∀ c, updateBufferWithParticleDensity toInt px py s e w h c =
      ((Finset.Ico s e).filter
        (fun j => inRangeCell toInt px py w h j ∧
          cellIndex toInt px py w j = c)).card) := by
  constructor
  · intro buffer i
    constructor
    · intro hin
      unfold inRangeCell at hin
      constructor
      · simp only [densityStep, cellIndex, ite_apply]
        rw [if_pos hin]
        simp
      · intro n hn
        unfold cellIndex at hn
        simp only [densityStep, ite_apply]
        rw [if_pos hin, if_neg hn]
    · intro hout n
      unfold inRangeCell at hout
      simp only [densityStep, ite_apply]
      rw [if_neg hout]
  · intro c
    exact updateBuffer_char toInt px py s e w h c

theorem density_writer_per_particle_witness :
    inRangeCell (fun z : Int => z) (fun i => (i : Int)) (fun _ => (0 : Int)) 4 4 1 ∧
    densityStep (fun z : Int => z) (fun i => (i : Int)) (fun _ => (0 : Int)) 4 4
      (fun _ => 0) 1
      (cellIndex (fun z : Int => z) (fun i => (i : Int)) (fun _ => (0 : Int)) 4 1) = 1 :=
  ⟨by decide,
    (((density_writer_per_particle (fun z : Int => z) (fun i => (i : Int))
      (fun _ => (0 : Int)) 0 3 4 4).1 (fun _ => 0) 1).1 (by decide)).1⟩

/-- C4: density conservation in counted mode — summing the combined buffer
(the element-wise `_mm256_add_epi32` merge of the two half-range writers'
buffers, with the destination aliasing the first buffer as in main.c:339)
over all `width * height` cells yields exactly the number of particles in
`[0, count)` whose position lies in `[0,w) × [0,h)`: no particle is counted
twice or dropped across the worker-chunk boundary at `count / 2`. -/
theorem density_conservation {F : Type} (toInt : F → Int) (px py : Nat → F)
    (count w h : Nat) :
    (∑ c in Finset.range (w * h),
      combineDensityBuffers
        (updateBufferWithParticleDensity toInt px py 0 (count / 2) w h)
        (updateBufferWithParticleDensity toInt px py (count / 2) count w h)
        (updateBufferWithParticleDensity toInt px py 0 (count / 2) w h)
        (w * h) c) =
      ((Finset.range count).filter (fun j => inRangeCell toInt px py w h j)).card := by
  have hcov : ∀ c ∈ Finset.range (w * h),
      combineDensityBuffers
        (updateBufferWithParticleDensity toInt px py 0 (count / 2) w h)
        (updateBufferWithParticleDensity toInt px py (count / 2) count w h)
        (updateBufferWithParticleDensity toInt px py 0 (count / 2) w h)
        (w * h) c =
      updateBufferWithParticleDensity toInt px py 0 (count / 2) w h c +
        updateBufferWithParticleDensity toInt px py (count / 2) count w h c :=
    fun c hc => combineDensityBuffers_cover _ _ _ _ c (Finset.mem_range.mp hc)
  rw [Finset.sum_congr rfl hcov, Finset.sum_add_distrib, sum_updateBuffer,
    sum_updateBuffer]
  rw [Finset.range_eq_Ico]
  rw [← Finset.Ico_union_Ico_eq_Ico (Nat.zero_le (count / 2)) (Nat.div_le_self count 2)]
  rw [Finset.filter_union]
  rw [Finset.card_union_of_disjoint
    (Finset.disjoint_filter_filter
      (Finset.Ico_disjoint_Ico_consecutive 0 (count / 2) count))]

/-- C5 counterexample: on the chunk `[0, 9)` — length 9, not a multiple of
8 — the kernel loop stops after the block `[0, 8)` and there is no scalar
tail loop: particle 8 keeps its initial position 0, yet the per-particle
rule (under the integer interpretation `intOps`, attractor at `(1, 0)`)
would move it to 1. The trailing particle of the chunk is left un-updated,
contrary to the claim. -/
theorem kernel_tail_counterexample :
    (updateParticlesWorkCallback intOps 1 0 1 1 stZero 0 9).posX 8 = 0 ∧
    (specAt intOps 1 0 1 1 stZero 8).px = 1 := by
  decide

/-- C5 (amended): the kernel has no scalar tail loop: exactly the indices
in `[start, start + 8 * ((end - start) / 8))` are updated (each by the
per-particle rule); the trailing `(end - start) mod 8` indices of the
chunk, like all indices outside it, are left untouched. When the chunk
length is a multiple of 8 — as in the shipped configuration, where every
chunk has length `3096000 / 12 = 258000` — every particle of the chunk is
processed. -/
theorem kernel_chunk_processing {F : Type} (ops : FOps F) (ax ay att fric : F)
    (st : PState F) (s e : Nat) :
    ((8 ∣ e - s) → ∀ n, s ≤ n → n < e →
      stateEqUpd (updateParticlesWorkCallback ops ax ay att fric st s e)
        (specAt ops ax ay att fric st n) n) ∧
    (∀ n, s + 8 * ((e - s) / 8) ≤ n →
      agreeAt (updateParticlesWorkCallback ops ax ay att fric st s e) st n) ∧
    (∀ n, n < s →
      agreeAt (updateParticlesWorkCallback ops ax ay att fric st s e) st n) := by
  refine ⟨?_, ?_, ?_⟩
  · intro hdvd n hn1 hn2
    exact updateParticlesLoop_mid ops ax ay att fric e e s n st (by omega) hn1 (by omega)
  · intro n hn
    exact updateParticlesLoop_hi ops ax ay att fric e e s n st hn
  · intro n hn
    exact updateParticlesLoop_lo ops ax ay att fric e e s n st hn

theorem kernel_chunk_processing_witness :
    ((8 ∣ 8 - 0) ∧ 0 ≤ 0 ∧ 0 < 8 ∧ 0 + 8 * ((9 - 0) / 8) ≤ 8) ∧
    stateEqUpd (updateParticlesWorkCallback intOps 1 0 1 1 stZero 0 8)
      (specAt intOps 1 0 1 1 stZero 0) 0 ∧
    agreeAt (updateParticlesWorkCallback intOps 1 0 1 1 stZero 0 9) stZero 8 :=
  ⟨⟨by decide, by decide, by decide, by decide⟩,
    (kernel_chunk_processing intOps 1 0 1 1 stZero 0 8).1 (by decide) 0
      (by decide) (by decide),
    (kernel_chunk_processing intOps 1 0 1 1 stZero 0 9).2.1 8 (by decide)⟩

/-- C6: for a particle whose position coincides with the attractor, the
kernel performs the division `dx / dist` unguarded — no minimum-distance
clamp is applied — so with `dist = sqrt(0*0 + 0*0) = 0` the normalized
direction is `0 / 0` and the particle's updated velocity is non-finite for
that tick. Stated for any interpretation of the arithmetic in which
`x - x = 0`, `0 * 0 = 0`, `0 + 0 = 0`, `sqrt 0 = 0`, `0 / 0` is non-finite
and non-finiteness is absorbed by `*` and `+` — all of which hold for IEEE
binary32 with "non-finite" read as NaN-or-infinite. -/
theorem kernel_zero_distance_nonfinite {F : Type} (ops : FOps F)
    (nf : F → Prop) (z ax ay att fric : F) (st : PState F) (s e n : Nat)
    (hpx : st.posX n = ax) (hpy : st.posY n = ay)
    (hsx : ops.sub ax ax = z) (hsy : ops.sub ay ay = z)
    (hmz : ops.mul z z = z) (haz : ops.add z z = z) (hqz : ops.sqrt z = z)
    (hdz : nf (ops.div z z))
    (hmul : ∀ x y, nf x → nf (ops.mul x y))
    (hadd : ∀ x y, nf y → nf (ops.add x y))
    (h1 : s ≤ n) (h2 : n < s + 8 * ((e - s) / 8)) :
    nf ((updateParticlesWorkCallback ops ax ay att fric st s e).velX n) ∧
    nf ((updateParticlesWorkCallback ops ax ay att fric st s e).velY n) := by
  have hmid := updateParticlesLoop_mid ops ax ay att fric e e s n st (by omega) h1 h2
  obtain ⟨hpx', hpy', hvx', hvy'⟩ := hmid
  unfold updateParticlesWorkCallback
  constructor
  · rw [hvx']
    simp only [specAt, specParticleRule]
    rw [hpx, hpy, hsx, hsy, hmz, haz, hqz]
    exact hmul _ _ (hadd _ _ (hmul _ _ hdz))
  · rw [hvy']
    simp only [specAt, specParticleRule]
    rw [hpx, hpy, hsx, hsy, hmz, haz, hqz]
    exact hmul _ _ (hadd _ _ (hmul _ _ hdz))

theorem kernel_zero_distance_nonfinite_witness :
    (stZeroOpt.posX 0 = some 0 ∧ optIntOps.div (some 0) (some 0) = none) ∧
    (updateParticlesWorkCallback optIntOps (some 0) (some 0) (some 1) (some 1)
      stZeroOpt 0 8).velX 0 = none ∧
    (updateParticlesWorkCallback optIntOps (some 0) (some 0) (some 1) (some 1)
      stZeroOpt 0 8).velY 0 = none :=
  ⟨⟨rfl, by decide⟩,
    kernel_zero_distance_nonfinite optIntOps (fun x => x = none) (some 0)
      (some 0) (some 0) (some 1) (some 1) stZeroOpt 0 8 0 rfl rfl (by decide)
      (by decide) (by decide) (by decide) rfl (by decide)
      (fun x y hx => by subst hx; cases y <;> rfl)
      (fun x y hy => by subst hy; cases x <;> rfl) (by decide) (by decide)⟩

/-- C7: under scanline placement, `CreateParticles` puts particle `i` at
exactly `x = i mod width`, `y = i div width` (continuing below the screen
when `i ≥ width * height` — no clamp on `y`), sets both velocity components
to zero, and stores the `count` argument in the returned set. -/
theorem createParticles_scanline (count w h i : Nat) (hi : i < count) :
    (createParticles count w h).posX[i]? = some ((i % w : Nat) : Int) ∧
    (createParticles count w h).posY[i]? = some ((i / w : Nat) : Int) ∧
    (createParticles count w h).velX[i]? = some 0 ∧
    (createParticles count w h).velY[i]? = some 0 ∧
    (createParticles count w h).count = count := by
  unfold createParticles
  refine ⟨?_, ?_, ?_, ?_, rfl⟩ <;>
    simp [List.getElem?_map, List.getElem?_range, hi]

theorem createParticles_scanline_witness :
    5 < 7 ∧
    ((createParticles 7 3 2).posX[5]? = some ((5 % 3 : Nat) : Int) ∧
     (createParticles 7 3 2).posY[5]? = some ((5 / 3 : Nat) : Int) ∧
     (createParticles 7 3 2).velX[5]? = some 0 ∧
     (createParticles 7 3 2).velY[5]? = some 0 ∧
     (createParticles 7 3 2).count = 7) :=
  ⟨by decide, createParticles_scanline 7 3 2 5 (by decide)⟩

/-- C8: `CreateParticles` performs no allocation-failure handling at all:
with the first `_aligned_malloc` returning NULL (and `count = 0`, so the
initialization loop does not dereference the NULL pointer), it still
returns a `Particles` value — `count` stored, `posX` NULL, the remaining
arrays allocated — instead of surfacing an allocation error and releasing
the partial allocations; the return type has no failure channel. -/
theorem createParticles_no_alloc_check :
    (createParticlesAlloc false true true true 0 4 4).posX = none ∧
    (createParticlesAlloc false true true true 0 4 4).velX = some [] ∧
    (createParticlesAlloc false true true true 0 4 4).count = 0 := by
  refine ⟨rfl, rfl, rfl⟩

/-- C9: whenever the wrapper allocation, the pool creation, or the
minimum-thread-count setting fails, `SimpleThreadPool_Init` returns NULL
(never a half-built pool), and on each such path every resource already
acquired — the wrapper allocation, the pool object, the callback
environment — has been released before returning. -/
theorem simpleThreadPool_Init_cleanup : ∀ mallocOk createPoolOk setMinOk : Bool,
    (mallocOk = false ∨ createPoolOk = false ∨ setMinOk = false) →
    (simpleThreadPool_Init mallocOk createPoolOk setMinOk).success = false ∧
    ((simpleThreadPool_Init mallocOk createPoolOk setMinOk).wrapperAllocated = true →
      (simpleThreadPool_Init mallocOk createPoolOk setMinOk).wrapperFreed = true) ∧
    ((simpleThreadPool_Init mallocOk createPoolOk setMinOk).poolCreated = true →
      (simpleThreadPool_Init mallocOk createPoolOk setMinOk).poolClosed = true) ∧
    ((simpleThreadPool_Init mallocOk createPoolOk setMinOk).envInitialized = true →
      (simpleThreadPool_Init mallocOk createPoolOk setMinOk).envDestroyed = true) := by
  decide

theorem simpleThreadPool_Init_cleanup_witness :
    ((false : Bool) = false ∨ (true : Bool) = false ∨ (true : Bool) = false) ∧
    ((simpleThreadPool_Init false true true).success = false ∧
     ((simpleThreadPool_Init false true true).wrapperAllocated = true →
       (simpleThreadPool_Init false true true).wrapperFreed = true) ∧
     ((simpleThreadPool_Init false true true).poolCreated = true →
       (simpleThreadPool_Init false true true).poolClosed = true) ∧
     ((simpleThreadPool_Init false true true).envInitialized = true →
       (simpleThreadPool_Init false true true).envDestroyed = true)) :=
  ⟨Or.inl rfl, simpleThreadPool_Init_cleanup false true true (Or.inl rfl)⟩

/-- C10 counterexample: at cell count 15 with `maxDensity = 50`, the code's
single-precision pipeline yields brightness 76 — the float product
`15 * fl(255/50)` is exactly 76.5 and `cvtps_epi32` rounds ties to even —
while the claimed formula `min(255, round(count * 255 / maxDensity))`
yields `round(76.5) = 77`. -/
theorem brightness_formula_counterexample :
    densityToBrightness 50 15 ≠ min (255 : Int) (round ((15 * 255 : ℚ) / 50)) := by
  rw [brightness_15_50]
  rw [show ((15 * 255 : ℚ) / 50) = 153 / 2 by norm_num, round_eq]
  rw [show (153 : ℚ) / 2 + 1 / 2 = 77 by norm_num]
  rw [show ⌊(77 : ℚ)⌋ = 77 from floorq _ 77 (by norm_num) (by norm_num)]
  rw [min_eq_right (by norm_num : (77 : Int) ≤ 255)]
  norm_num

/-- C10 (amended): in density mode each output cell `c < bufferSize` holds
one packed 32-bit RGBA value with the brightness replicated into R, G and B
and A = 255, where the brightness is the claimed formula
`min(255, count * 255/maxDensity)` evaluated in binary32 arithmetic with
round-to-nearest-even (`densityToBrightness`) — which can differ from
`min(255, round(count * 255 / maxDensity))` by one at rounding ties. -/
theorem density_pixel_mapping (den pixels : Nat → Nat) (size maxD c : Nat)
    (hc : c < size) :
    applyDensityToPixelsSIMD den pixels size maxD c =
      packRGBA (densityToBrightness maxD (den c)).toNat
        (densityToBrightness maxD (den c)).toNat
        (densityToBrightness maxD (den c)).toNat 255 :=
  applyDensityLoop_cover den maxD size size 0 c pixels (by omega) (Nat.zero_le c) hc

theorem density_pixel_mapping_witness :
    0 < 8 ∧
    applyDensityToPixelsSIMD (fun _ => 15) (fun _ => 0) 8 50 0 =
      packRGBA (densityToBrightness 50 15).toNat (densityToBrightness 50 15).toNat
        (densityToBrightness 50 15).toNat 255 :=
  ⟨by decide, density_pixel_mapping (fun _ => 15) (fun _ => 0) 8 50 0 (by decide)⟩
